import Mathlib

/-!
Verification of the image-processing pipeline of `basic_image_processing.py`.

The decoded image buffer (a numpy `uint8` array of shape `(h, w)` for
grayscale or `(h, w, c)` for color) is embedded as a structure carrying the
three dimensions and a total sample function indexed by row, column and
channel.  External OpenCV primitives that the repository calls are embedded
by their documented semantics: `cv2.cvtColor(·, COLOR_BGR2GRAY)` (fixed-point
luminance combination, defined only for 3- or 4-channel inputs — here the
3-channel case of the repository), `cv2.rotate`, `cv2.flip`, `cv2.line`
(axis-aligned, thickness 1), `cv2.contourArea` (Green formula, absolute
value, halved) and `cv2.boundingRect`.  `cv2.GaussianBlur`, `cv2.Canny` and
`cv2.findContours` are kept abstract: every theorem about `detect_objects`
is quantified over them, since the claims under study do not depend on
their pixel-level output.
-/

set_option autoImplicit false

namespace BasicImage

/-- A decoded image buffer: `height × width × channels` grid of 8-bit
samples.  `samples y x c` is the sample at row `y`, column `x`, channel `c`
(channel order is the storage order of the underlying array, i.e. BGR for
color buffers).  A 1-channel buffer models a 2-dimensional numpy array. -/
structure Img where
  height : ℕ
  width : ℕ
  channels : ℕ
  samples : ℕ → ℕ → ℕ → ℕ

/-- Elementwise equality of two buffers, the meaning of `==` /
`np.array_equal` on numpy arrays: same dimensions and the same sample at
every in-range index. -/
def Img.Equiv (a b : Img) : Prop :=
  a.height = b.height ∧ a.width = b.width ∧ a.channels = b.channels ∧
    ∀ y < a.height, ∀ x < a.width, ∀ c < a.channels,
      a.samples y x c = b.samples y x c

/-- The numpy `shape` of the underlying array: `(h, w)` for a 1-channel
(2-dimensional) buffer, `(h, w, c)` otherwise. -/
def Img.shape (img : Img) : List ℕ :=
  if img.channels = 1 then [img.height, img.width]
  else [img.height, img.width, img.channels]

/-- The numpy `size` of the underlying array: the product of its shape. -/
def Img.size (img : Img) : ℕ :=
  img.shape.prod

/-- The value of `cv2.cvtColor(img, cv2.COLOR_BGR2GRAY)` on a 3-channel BGR
buffer: OpenCV's fixed-point luminance combination
`(1868·B + 9617·G + 4899·R + 2^13) >> 14` of the three channels. -/
def grayValue (img : Img) : Img :=
  { height := img.height, width := img.width, channels := 1,
    samples := fun y x _ =>
      (1868 * img.samples y x 0 + 9617 * img.samples y x 1 +
        4899 * img.samples y x 2 + 8192) / 16384 }

/-- Embedding of `cv2.cvtColor(img, cv2.COLOR_BGR2GRAY)`: defined on
3-channel inputs, and raises (`none`) on any other channel count — in
particular on an already-grayscale (1-channel) buffer. -/
def cvtColor_BGR2GRAY (img : Img) : Option Img :=
  if img.channels = 3 then some (grayValue img) else none

/-- Source `to_grayscale` (line 23): a bare call to
`cv2.cvtColor(img_bgr, cv2.COLOR_BGR2GRAY)`. -/
def to_grayscale (img : Img) : Option Img :=
  cvtColor_BGR2GRAY img

/-- The property set returned by `get_properties`: an ordered record of the
reported metadata. -/
structure Props where
  width : ℕ
  height : ℕ
  channels : ℕ
  shape : List ℕ
  dtype : String
  totalPixels : ℕ
  deriving DecidableEq

/-- Source `get_properties` (lines 28-39): reads `shape[:2]`, reports
`shape[2]` as the channel count when the array is 3-dimensional and `1`
otherwise, and reports `img.size` as the total pixel count. -/
def get_properties (img : Img) : Props :=
  let s := img.shape
  { width := s.getD 1 0,
    height := s.getD 0 0,
    channels := if s.length = 3 then s.getD 2 0 else 1,
    shape := s,
    dtype := "uint8",
    totalPixels := img.size }

/-- The value of `cv2.rotate(img, cv2.ROTATE_90_CLOCKWISE)`: the output has
the transposed dimensions and `out[y][x] = in[h-1-x][y]`. -/
def cvRotate90CW (img : Img) : Img :=
  { height := img.width, width := img.height, channels := img.channels,
    samples := fun y x c => img.samples (img.height - 1 - x) y c }

/-- The value of `cv2.rotate(img, cv2.ROTATE_180)`:
`out[y][x] = in[h-1-y][w-1-x]`. -/
def cvRotate180 (img : Img) : Img :=
  { height := img.height, width := img.width, channels := img.channels,
    samples := fun y x c =>
      img.samples (img.height - 1 - y) (img.width - 1 - x) c }

/-- The value of `cv2.rotate(img, cv2.ROTATE_90_COUNTERCLOCKWISE)`: the
output has the transposed dimensions and `out[y][x] = in[x][w-1-y]`. -/
def cvRotate90CCW (img : Img) : Img :=
  { height := img.width, width := img.height, channels := img.channels,
    samples := fun y x c => img.samples x (img.width - 1 - y) c }

/-- Source `rotate_image` (lines 42-50): dispatches on the angle and
returns the input itself for any angle outside `{90, 180, 270}`. -/
def rotate_image (img : Img) (angle : ℤ) : Img :=
  if angle = 90 then cvRotate90CW img
  else if angle = 180 then cvRotate180 img
  else if angle = 270 then cvRotate90CCW img
  else img

/-- Source `mirror_image` (lines 53-54): `cv2.flip(img, 1)`, the horizontal
flip `out[y][x] = in[y][w-1-x]`. -/
def mirror_image (img : Img) : Img :=
  { height := img.height, width := img.width, channels := img.channels,
    samples := fun y x c => img.samples y (img.width - 1 - x) c }

/-- The fixed highlight color of the grid and detection overlays, the OpenCV
scalar `(0, 255, 0)` (green in BGR order), as a per-channel value. -/
def lineColor : ℕ → ℕ :=
  fun c => if c = 1 then 255 else 0

/-- The effect of `cv2.line(img, (0, y0), (w, y0), (0,255,0), 1)`: a
one-pixel-wide horizontal line at row `y0`, spanning every column of the
image (endpoints are clipped to the image rectangle). -/
def drawHLine (img : Img) (y0 : ℕ) : Img :=
  { img with samples := fun y x c =>
      if y = y0 then lineColor c else img.samples y x c }

/-- The effect of `cv2.line(img, (x0, 0), (x0, h), (0,255,0), 1)`: a
one-pixel-wide vertical line at column `x0`, spanning every row. -/
def drawVLine (img : Img) (x0 : ℕ) : Img :=
  { img with samples := fun y x c =>
      if x = x0 then lineColor c else img.samples y x c }

/-- Source `make_grid` (lines 57-73): copy the input, then draw, for each
`r` in `range(1, rows)`, a horizontal line at `y = r * (h // rows)`, then,
for each `c` in `range(1, cols)`, a vertical line at `x = c * (w // cols)`.
The copy has value semantics here; the aliasing discipline is modelled
separately by the heap-level `make_grid_st`. -/
def make_grid (img : Img) (rows cols : ℕ) : Img :=
  let cellH := img.height / rows
  let cellW := img.width / cols
  let g1 := (List.range' 1 (rows - 1)).foldl
    (fun g r => drawHLine g (r * cellH)) img
  (List.range' 1 (cols - 1)).foldl (fun g c => drawVLine g (c * cellW)) g1

/-- A contour as returned by `cv2.findContours`: a closed polygon given by
its list of integer vertices. -/
abbrev Contour : Type := List (ℤ × ℤ)

/-- The value of `cv2.contourArea(c)`: half the absolute value of the
cyclic cross-product (Green / shoelace) sum of the vertex list. -/
def shoelaceSum : Contour → ℤ
  | [] => 0
  | p :: ps =>
    (List.zip (p :: ps) (ps ++ [p])).foldl
      (fun acc q => acc + (q.1.1 * q.2.2 - q.2.1 * q.1.2)) 0

/-- Embedding of `cv2.contourArea`, an exact rational (the float result is
exact for realistic magnitudes: it is a half-integer). -/
def contourArea (c : Contour) : ℚ :=
  ((shoelaceSum c).natAbs : ℚ) / 2

/-- The value of `cv2.boundingRect(c)`: `(x, y, w, h)` of the least
axis-aligned rectangle containing the vertices. -/
def boundingRect (c : Contour) : ℤ × ℤ × ℤ × ℤ :=
  match c with
  | [] => (0, 0, 0, 0)
  | p :: ps =>
    let xmin := ps.foldl (fun a q => min a q.1) p.1
    let ymin := ps.foldl (fun a q => min a q.2) p.2
    let xmax := ps.foldl (fun a q => max a q.1) p.1
    let ymax := ps.foldl (fun a q => max a q.2) p.2
    (xmin, ymin, xmax - xmin + 1, ymax - ymin + 1)

/-- The effect of `cv2.rectangle(img, (x, y), (x+w, y+h), (0,255,0), 2)`:
the 2-pixel-thick axis-aligned rectangle border is painted in the highlight
color. -/
def drawRect (img : Img) (r : ℤ × ℤ × ℤ × ℤ) : Img :=
  let x := r.1
  let y := r.2.1
  let xe := r.1 + r.2.2.1
  let ye := r.2.1 + r.2.2.2
  { img with samples := fun yy xx c =>
      let zy : ℤ := (yy : ℤ)
      let zx : ℤ := (xx : ℤ)
      if (x ≤ zx ∧ zx ≤ xe ∧ (zy = y ∨ zy = y + 1 ∨ zy = ye ∨ zy = ye - 1))
        ∨ (y ≤ zy ∧ zy ≤ ye ∧ (zx = x ∨ zx = x + 1 ∨ zx = xe ∨ zx = xe - 1))
      then lineColor c else img.samples yy xx c }

/-- The body of the `for c in contours` loop of `detect_objects`
(lines 86-91): the state is the annotated copy and the running count; a
contour is processed only when its area strictly exceeds `min_area`. -/
def detectStep (minArea : ℚ) (st : Img × ℕ) (c : Contour) : Img × ℕ :=
  if minArea < contourArea c then (drawRect st.1 (boundingRect c), st.2 + 1)
  else st

/-- Source `detect_objects` (lines 76-93), parameterized over the external
OpenCV stages it calls: `gb` embeds `cv2.GaussianBlur(·, (5,5), 0)`, `cn`
embeds `cv2.Canny(·, 50, 150)` and `fc` embeds the contour list returned by
`cv2.findContours(·, RETR_EXTERNAL, CHAIN_APPROX_SIMPLE)`.  The initial
`cv2.cvtColor` raises on a non-3-channel input, hence the `Option`. -/
def detect_objects (gb cn : Img → Img) (fc : Img → List Contour)
    (img : Img) (minArea : ℚ) : Option (Img × ℕ) :=
  match cvtColor_BGR2GRAY img with
  | none => none
  | some gray =>
    let blur := gb gray
    let edges := cn blur
    let contours := fc edges
    some (contours.foldl (detectStep minArea) (img, 0))

/-- The object count of a detection result, `0` when the detector raised. -/
def objectCount (r : Option (Img × ℕ)) : ℕ :=
  (r.map Prod.snd).getD 0

/-! ### Heap-level model of array aliasing

numpy arrays are mutable heap objects: `.copy()` allocates a fresh array,
`cv2.line` / `cv2.rectangle` mutate their first argument in place, and the
pure OpenCV conversions allocate fresh result arrays.  The heap maps
references (natural numbers below `next`) to buffer values. -/

/-- The heap of live numpy arrays. -/
structure Heap where
  mem : ℕ → Img
  next : ℕ

/-- Allocate a fresh array holding `v`, returning its reference. -/
def Heap.alloc (σ : Heap) (v : Img) : ℕ × Heap :=
  (σ.next, { mem := fun i => if i = σ.next then v else σ.mem i,
             next := σ.next + 1 })

/-- The numpy `arr.copy()`: allocate a fresh array with the same
contents. -/
def Heap.copy (σ : Heap) (r : ℕ) : ℕ × Heap :=
  σ.alloc (σ.mem r)

/-- In-place `cv2.line` (horizontal case) on the array at `r`. -/
def Heap.lineH (σ : Heap) (r : ℕ) (y0 : ℕ) : Heap :=
  { σ with mem := fun i => if i = r then drawHLine (σ.mem r) y0 else σ.mem i }

/-- In-place `cv2.line` (vertical case) on the array at `r`. -/
def Heap.lineV (σ : Heap) (r : ℕ) (x0 : ℕ) : Heap :=
  { σ with mem := fun i => if i = r then drawVLine (σ.mem r) x0 else σ.mem i }

/-- In-place `cv2.rectangle` on the array at `r`. -/
def Heap.rect (σ : Heap) (r : ℕ) (b : ℤ × ℤ × ℤ × ℤ) : Heap :=
  { σ with mem := fun i => if i = r then drawRect (σ.mem r) b else σ.mem i }

/-- Heap-level `to_grayscale`: `cv2.cvtColor` allocates its result (or
raises, leaving the heap unchanged). -/
def to_grayscale_st (r : ℕ) (σ : Heap) : Option ℕ × Heap :=
  match to_grayscale (σ.mem r) with
  | none => (none, σ)
  | some g => let a := σ.alloc g; (some a.1, a.2)

/-- Heap-level `get_properties`: a pure read of metadata. -/
def get_properties_st (r : ℕ) (σ : Heap) : Props × Heap :=
  (get_properties (σ.mem r), σ)

/-- Heap-level `rotate_image`: `cv2.rotate` allocates its result; the
fall-through branch returns the input reference itself. -/
def rotate_image_st (r : ℕ) (angle : ℤ) (σ : Heap) : ℕ × Heap :=
  if angle = 90 ∨ angle = 180 ∨ angle = 270 then
    σ.alloc (rotate_image (σ.mem r) angle)
  else (r, σ)

/-- Heap-level `mirror_image`: `cv2.flip` allocates its result. -/
def mirror_image_st (r : ℕ) (σ : Heap) : ℕ × Heap :=
  σ.alloc (mirror_image (σ.mem r))

/-- Heap-level `make_grid` (lines 57-73): the lines are drawn in place on
`grid_img = img_bgr.copy()` (line 63), never on the input. -/
def make_grid_st (r : ℕ) (rows cols : ℕ) (σ : Heap) : ℕ × Heap :=
  let img := σ.mem r
  let cellH := img.height / rows
  let cellW := img.width / cols
  let g := σ.copy r
  let σ1 := (List.range' 1 (rows - 1)).foldl
    (fun s rr => s.lineH g.1 (rr * cellH)) g.2
  let σ2 := (List.range' 1 (cols - 1)).foldl
    (fun s cc => s.lineV g.1 (cc * cellW)) σ1
  (g.1, σ2)

/-- The heap-level body of the contour loop of `detect_objects`: rectangles
are drawn in place on the annotated copy `obj`. -/
def detectStep_st (obj : ℕ) (minArea : ℚ) (st : Heap × ℕ) (c : Contour) :
    Heap × ℕ :=
  if minArea < contourArea c then (st.1.rect obj (boundingRect c), st.2 + 1)
  else st

/-- Heap-level `detect_objects` (lines 76-93): the grayscale, blur and edge
stages allocate fresh intermediate arrays, `obj_img = img_bgr.copy()`
(line 84) is a private copy, and the bounding boxes are drawn in place on
that copy only. -/
def detect_objects_st (gb cn : Img → Img) (fc : Img → List Contour)
    (r : ℕ) (minArea : ℚ) (σ : Heap) : Option (ℕ × ℕ) × Heap :=
  match cvtColor_BGR2GRAY (σ.mem r) with
  | none => (none, σ)
  | some g =>
    let a1 := σ.alloc g
    let a2 := a1.2.alloc (gb (a1.2.mem a1.1))
    let a3 := a2.2.alloc (cn (a2.2.mem a2.1))
    let contours := fc (a3.2.mem a3.1)
    let obj := a3.2.copy r
    let fin := contours.foldl (detectStep_st obj.1 minArea) (obj.2, 0)
    (some (obj.1, fin.2), fin.1)

/-! ### Concrete buffers and contours used to instantiate the theorems -/

/-- A 1×1 3-channel (BGR) buffer, all samples 0. -/
def imgB3 : Img :=
  { height := 1, width := 1, channels := 3, samples := fun _ _ _ => 0 }

/-- A 1×1 1-channel (grayscale) buffer, all samples 5. -/
def imgG1 : Img :=
  { height := 1, width := 1, channels := 1, samples := fun _ _ _ => 5 }

/-- A 4×4 3-channel buffer, all samples 7. -/
def imgEx4 : Img :=
  { height := 4, width := 4, channels := 3, samples := fun _ _ _ => 7 }

/-- A 2×2 3-channel buffer, all samples 7. -/
def img2 : Img :=
  { height := 2, width := 2, channels := 3, samples := fun _ _ _ => 7 }

/-- A 25×20 axis-aligned rectangle contour of enclosed area exactly 500. -/
def sq500 : Contour := [(0, 0), (25, 0), (25, 20), (0, 20)]

/-- A one-array heap holding `imgB3` at reference 0. -/
def heapEx : Heap :=
  { mem := fun _ => imgB3, next := 1 }

/-- The row offsets at which `make_grid` draws its horizontal lines:
`r * (h // rows)` for `r` in `range(1, rows)`. -/
def hLineOffsets (img : Img) (rows : ℕ) : List ℕ :=
  (List.range' 1 (rows - 1)).map (fun r => r * (img.height / rows))

/-- The column offsets at which `make_grid` draws its vertical lines:
`c * (w // cols)` for `c` in `range(1, cols)`. -/
def vLineOffsets (img : Img) (cols : ℕ) : List ℕ :=
  (List.range' 1 (cols - 1)).map (fun c => c * (img.width / cols))

/-! ### Unfolding lemmas for the rotation dispatch -/

/-- The 90° branch of `rotate_image`. -/
theorem rotate_image_90 (img : Img) : rotate_image img 90 = cvRotate90CW img := by
  simp [rotate_image]

/-- The 180° branch of `rotate_image`. -/
theorem rotate_image_180 (img : Img) : rotate_image img 180 = cvRotate180 img := by
  simp [rotate_image]

/-- The 270° branch of `rotate_image`. -/
theorem rotate_image_270 (img : Img) : rotate_image img 270 = cvRotate90CCW img := by
  simp [rotate_image]

/-- C4: for every buffer and every angle outside `{90, 180, 270}`,
`rotate_image` returns the input buffer unchanged and does not fail. -/
theorem claim_C4 (img : Img) (angle : ℤ)
    (h90 : angle ≠ 90) (h180 : angle ≠ 180) (h270 : angle ≠ 270) :
    rotate_image img angle = img := by
  simp [rotate_image, h90, h180, h270]

/-- Witness for C4 at angle 45 on a concrete buffer. -/
theorem claim_C4_witness :
    (45 : ℤ) ≠ 90 ∧ (45 : ℤ) ≠ 180 ∧ (45 : ℤ) ≠ 270 ∧
      rotate_image imgB3 45 = imgB3 :=
  ⟨by decide, by decide, by decide,
    claim_C4 imgB3 45 (by decide) (by decide) (by decide)⟩

/-- C6: mirroring is an involution, four 90° rotations restore the buffer,
and two 180° rotations restore the buffer (elementwise array equality). -/
theorem claim_C6 (img : Img) :
    Img.Equiv (mirror_image (mirror_image img)) img ∧
    Img.Equiv
      (rotate_image (rotate_image (rotate_image (rotate_image img 90) 90) 90) 90)
      img ∧
    Img.Equiv (rotate_image (rotate_image img 180) 180) img := by
  refine ⟨⟨rfl, rfl, rfl, ?_⟩, ?_, ?_⟩
  · intro y hy x hx c hc
    simp only [mirror_image] at hy hx hc ⊢
    congr 1
    omega
  · simp only [rotate_image_90]
    refine ⟨rfl, rfl, rfl, ?_⟩
    intro y hy x hx c hc
    simp only [cvRotate90CW] at hy hx ⊢
    congr 1 <;> omega
  · simp only [rotate_image_180]
    refine ⟨rfl, rfl, rfl, ?_⟩
    intro y hy x hx c hc
    simp only [cvRotate180] at hy hx ⊢
    congr 1 <;> omega

/-- C7: 90° and 270° rotations swap height and width, while 180° rotation
and mirroring preserve both dimensions. -/
theorem claim_C7 (img : Img) :
    (rotate_image img 90).height = img.width ∧
    (rotate_image img 90).width = img.height ∧
    (rotate_image img 270).height = img.width ∧
    (rotate_image img 270).width = img.height ∧
    (rotate_image img 180).height = img.height ∧
    (rotate_image img 180).width = img.width ∧
    (mirror_image img).height = img.height ∧
    (mirror_image img).width = img.width := by
  simp [rotate_image_90, rotate_image_180, rotate_image_270,
    cvRotate90CW, cvRotate180, cvRotate90CCW, mirror_image]

/-- C8: `get_properties` always succeeds, performs no transformation, and
reports the buffer's width, height, channel count and total sample count
`height * width * channels`. -/
theorem claim_C8 (img : Img) :
    (get_properties img).width = img.width ∧
    (get_properties img).height = img.height ∧
    (get_properties img).channels = img.channels ∧
    (get_properties img).totalPixels = img.height * img.width * img.channels := by
  by_cases h1 : img.channels = 1
  · simp [get_properties, Img.shape, Img.size, h1]
  · simp [get_properties, Img.shape, Img.size, h1]
    ring

/-- C1 (amended): on every 3-channel buffer, `to_grayscale` succeeds and
returns a 1-channel buffer; but applying it to the 1-channel result raises
(`cv2.cvtColor` rejects a non-3-channel input), so the conversion is not
total over all valid buffers and is not idempotent. -/
theorem claim_C1 (img : Img) (h3 : img.channels = 3) :
    to_grayscale img = some (grayValue img) ∧
    (grayValue img).channels = 1 ∧
    to_grayscale (grayValue img) = none := by
  refine ⟨?_, rfl, ?_⟩
  · simp [to_grayscale, cvtColor_BGR2GRAY, h3]
  · simp [to_grayscale, cvtColor_BGR2GRAY, grayValue]

/-- Counterexample to C1 as stated: on a concrete 1-channel buffer the
conversion raises instead of returning the buffer unchanged. -/
theorem claim_C1_cex :
    to_grayscale imgG1 = none ∧ to_grayscale imgG1 ≠ some imgG1 := by
  refine ⟨rfl, ?_⟩
  simp [to_grayscale, cvtColor_BGR2GRAY, imgG1]

/-- Witness for C1 on a concrete 3-channel buffer. -/
theorem claim_C1_witness :
    imgB3.channels = 3 ∧
      (to_grayscale imgB3 = some (grayValue imgB3) ∧
        (grayValue imgB3).channels = 1 ∧
        to_grayscale (grayValue imgB3) = none) :=
  ⟨rfl, claim_C1 imgB3 rfl⟩

/-- The contour loop of `detect_objects`, as a fold, equals: draw a box for
each contour of area strictly above the threshold, and count them. -/
theorem detect_foldl_eq (minArea : ℚ) :
    ∀ (L : List Contour) (g : Img) (n : ℕ),
      L.foldl (detectStep minArea) (g, n) =
        ((L.filter (fun c => decide (minArea < contourArea c))).foldl
            (fun a c => drawRect a (boundingRect c)) g,
          n + (L.filter (fun c => decide (minArea < contourArea c))).length) := by
  intro L
  induction L with
  | nil => intro g n; simp
  | cons c L ih =>
    intro g n
    by_cases hc : minArea < contourArea c
    · have hfc : (c :: L).filter (fun c => decide (minArea < contourArea c)) =
          c :: L.filter (fun c => decide (minArea < contourArea c)) := by
        simp [List.filter_cons, hc]
      simp only [List.foldl_cons, detectStep, if_pos hc]
      rw [ih, hfc]
      simp only [List.foldl_cons, List.length_cons, Prod.mk.injEq]
      exact ⟨trivial, by omega⟩
    · have hfc : (c :: L).filter (fun c => decide (minArea < contourArea c)) =
          L.filter (fun c => decide (minArea < contourArea c)) := by
        simp [List.filter_cons, hc]
      simp only [List.foldl_cons, detectStep, if_neg hc]
      rw [ih, hfc]

/-- C2 (amended): when the detector runs (3-channel input), a contour is
discarded exactly when its area is less than or equal to the minimum; every
contour whose area strictly exceeds the minimum survives, contributing one
bounding box and one count increment.  A contour whose area equals the
minimum is discarded, contrary to the claim as stated. -/
theorem claim_C2 (gb cn : Img → Img) (fc : Img → List Contour)
    (img : Img) (minArea : ℚ) (h3 : img.channels = 3) :
    detect_objects gb cn fc img minArea =
      some
        (((fc (cn (gb (grayValue img)))).filter
            (fun c => decide (minArea < contourArea c))).foldl
          (fun a c => drawRect a (boundingRect c)) img,
         ((fc (cn (gb (grayValue img)))).filter
            (fun c => decide (minArea < contourArea c))).length) ∧
    (∀ (st : Img × ℕ) (c : Contour),
      detectStep minArea st c = st ↔ contourArea c ≤ minArea) := by
  constructor
  · simp only [detect_objects, cvtColor_BGR2GRAY, h3, if_pos]
    rw [detect_foldl_eq]
    simp
  · intro st c
    by_cases hc : minArea < contourArea c
    · simp only [detectStep, if_pos hc]
      constructor
      · intro h
        have := congrArg Prod.snd h
        simp at this
      · intro h
        exact absurd hc (not_lt.mpr h)
    · simp only [detectStep, if_neg hc]
      simp [le_of_not_lt hc]

/-- Counterexample to C2 as stated: a contour of area exactly 500 — not
below the default minimum of 500 — is nevertheless discarded, and the
detector reports zero objects. -/
theorem claim_C2_cex :
    contourArea sq500 = 500 ∧
    ¬ contourArea sq500 < 500 ∧
    objectCount (detect_objects id id (fun _ => [sq500]) imgB3 500) = 0 := by
  have harea : contourArea sq500 = 500 := by
    norm_num [contourArea, shoelaceSum, sq500]
  refine ⟨harea, by simp [harea], ?_⟩
  have hstep : detectStep 500 (imgB3, 0) sq500 = (imgB3, 0) := by
    simp [detectStep, harea]
  have hch : imgB3.channels = 3 := rfl
  simp [objectCount, detect_objects, cvtColor_BGR2GRAY, hch, hstep]

/-- Witness for C2 on a concrete 3-channel buffer and concrete detector
stages. -/
theorem claim_C2_witness :
    imgB3.channels = 3 ∧
      detect_objects id id (fun _ => [sq500]) imgB3 400 =
        some
          ((([sq500].filter (fun c => decide ((400 : ℚ) < contourArea c))).foldl
              (fun a c => drawRect a (boundingRect c)) imgB3),
           ([sq500].filter (fun c => decide ((400 : ℚ) < contourArea c))).length) :=
  ⟨rfl, (claim_C2 id id (fun _ => [sq500]) imgB3 400 rfl).1⟩

/-- Filtering with a larger strict lower bound keeps no more elements. -/
theorem length_filter_lt_mono (t1 t2 : ℚ) (h : t1 ≤ t2) :
    ∀ L : List Contour,
      (L.filter (fun c => decide (t2 < contourArea c))).length ≤
        (L.filter (fun c => decide (t1 < contourArea c))).length := by
  intro L
  induction L with
  | nil => simp
  | cons c L ih =>
    by_cases hc : t2 < contourArea c
    · have hc1 : t1 < contourArea c := lt_of_le_of_lt h hc
      simp [List.filter_cons, hc, hc1]
      omega
    · by_cases hc1 : t1 < contourArea c
      · simp [List.filter_cons, hc, hc1]
        omega
      · simp [List.filter_cons, hc, hc1]
        omega

/-- C3: for the same image (and the same external detector stages), raising
the minimum-area threshold never increases the returned object count. -/
theorem claim_C3 (gb cn : Img → Img) (fc : Img → List Contour)
    (img : Img) (t1 t2 : ℚ) (h : t1 ≤ t2) :
    objectCount (detect_objects gb cn fc img t2) ≤
      objectCount (detect_objects gb cn fc img t1) := by
  by_cases h3 : img.channels = 3
  · simp only [detect_objects, cvtColor_BGR2GRAY, h3, if_pos]
    rw [detect_foldl_eq, detect_foldl_eq]
    simpa [objectCount] using length_filter_lt_mono t1 t2 h _
  · simp [detect_objects, cvtColor_BGR2GRAY, h3, objectCount]

/-- Witness for C3 at thresholds 400 ≤ 450 on a concrete image. -/
theorem claim_C3_witness :
    (400 : ℚ) ≤ 450 ∧
      objectCount (detect_objects id id (fun _ => [sq500]) imgB3 450) ≤
        objectCount (detect_objects id id (fun _ => [sq500]) imgB3 400) :=
  ⟨by norm_num, claim_C3 id id (fun _ => [sq500]) imgB3 400 450 (by norm_num)⟩

/-- Drawing a batch of horizontal lines leaves the dimensions and channel
count unchanged. -/
theorem foldl_drawH_dims :
    ∀ (L : List ℕ) (k : ℕ) (g : Img),
      (L.foldl (fun g r => drawHLine g (r * k)) g).height = g.height ∧
      (L.foldl (fun g r => drawHLine g (r * k)) g).width = g.width ∧
      (L.foldl (fun g r => drawHLine g (r * k)) g).channels = g.channels := by
  intro L
  induction L with
  | nil => intro k g; exact ⟨rfl, rfl, rfl⟩
  | cons a L ih =>
    intro k g
    simpa only [List.foldl_cons] using ih k (drawHLine g (a * k))

/-- Drawing a batch of vertical lines leaves the dimensions and channel
count unchanged. -/
theorem foldl_drawV_dims :
    ∀ (L : List ℕ) (k : ℕ) (g : Img),
      (L.foldl (fun g c => drawVLine g (c * k)) g).height = g.height ∧
      (L.foldl (fun g c => drawVLine g (c * k)) g).width = g.width ∧
      (L.foldl (fun g c => drawVLine g (c * k)) g).channels = g.channels := by
  intro L
  induction L with
  | nil => intro k g; exact ⟨rfl, rfl, rfl⟩
  | cons a L ih =>
    intro k g
    simpa only [List.foldl_cons] using ih k (drawVLine g (a * k))

/-- The sample left by a batch of horizontal lines: the highlight color on
every drawn row, the underlying sample elsewhere. -/
theorem foldl_drawH_samples :
    ∀ (L : List ℕ) (k : ℕ) (g : Img) (y x c : ℕ),
      (L.foldl (fun g r => drawHLine g (r * k)) g).samples y x c =
        if ∃ r ∈ L, y = r * k then lineColor c else g.samples y x c := by
  intro L
  induction L with
  | nil => intro k g y x c; simp
  | cons a L ih =>
    intro k g y x c
    simp only [List.foldl_cons]
    rw [ih]
    by_cases h2 : y = a * k
    · by_cases h1 : ∃ r ∈ L, y = r * k
      · simp [h1, h2, drawHLine]
      · simp [h1, h2, drawHLine]
    · by_cases h1 : ∃ r ∈ L, y = r * k
      · simp [h1, h2, drawHLine]
      · simp [h1, h2, drawHLine]

/-- The sample left by a batch of vertical lines: the highlight color on
every drawn column, the underlying sample elsewhere. -/
theorem foldl_drawV_samples :
    ∀ (L : List ℕ) (k : ℕ) (g : Img) (y x c : ℕ),
      (L.foldl (fun g cc => drawVLine g (cc * k)) g).samples y x c =
        if ∃ cc ∈ L, x = cc * k then lineColor c else g.samples y x c := by
  intro L
  induction L with
  | nil => intro k g y x c; simp
  | cons a L ih =>
    intro k g y x c
    simp only [List.foldl_cons]
    rw [ih]
    by_cases h2 : x = a * k
    · by_cases h1 : ∃ cc ∈ L, x = cc * k
      · simp [h1, h2, drawVLine]
      · simp [h1, h2, drawVLine]
    · by_cases h1 : ∃ cc ∈ L, x = cc * k
      · simp [h1, h2, drawVLine]
      · simp [h1, h2, drawVLine]

/-- The grid overlay preserves the height, width and channel count. -/
theorem make_grid_dims (img : Img) (rows cols : ℕ) :
    (make_grid img rows cols).height = img.height ∧
    (make_grid img rows cols).width = img.width ∧
    (make_grid img rows cols).channels = img.channels := by
  simp only [make_grid]
  refine ⟨?_, ?_, ?_⟩
  · rw [(foldl_drawV_dims _ _ _).1, (foldl_drawH_dims _ _ _).1]
  · rw [(foldl_drawV_dims _ _ _).2.1, (foldl_drawH_dims _ _ _).2.1]
  · rw [(foldl_drawV_dims _ _ _).2.2, (foldl_drawH_dims _ _ _).2.2]

/-- Membership in a scaled offset list, as a bounded existential. -/
theorem mem_offsets_iff (L : List ℕ) (k y : ℕ) :
    y ∈ L.map (fun r => r * k) ↔ ∃ r ∈ L, y = r * k := by
  simp only [List.mem_map]
  constructor
  · rintro ⟨r, hr, he⟩
    exact ⟨r, hr, he.symm⟩
  · rintro ⟨r, hr, he⟩
    exact ⟨r, hr, he.symm⟩

/-- Pixelwise description of `make_grid`: the highlight color exactly on
the drawn rows `r * (h // rows)` and columns `c * (w // cols)`, the
original sample everywhere else. -/
theorem make_grid_samples (img : Img) (rows cols : ℕ) (y x c : ℕ) :
    (make_grid img rows cols).samples y x c =
      if y ∈ hLineOffsets img rows ∨ x ∈ vLineOffsets img cols
      then lineColor c else img.samples y x c := by
  simp only [make_grid, hLineOffsets, vLineOffsets, mem_offsets_iff]
  rw [foldl_drawV_samples, foldl_drawH_samples]
  by_cases hV : ∃ cc ∈ List.range' 1 (cols - 1), x = cc * (img.width / cols)
  · rw [if_pos hV, if_pos (Or.inr hV)]
  · rw [if_neg hV]
    by_cases hH : ∃ r ∈ List.range' 1 (rows - 1), y = r * (img.height / rows)
    · rw [if_pos hH, if_pos (Or.inl hH)]
    · rw [if_neg hH, if_neg (not_or.mpr ⟨hH, hV⟩)]

/-- Every grid offset `r * (H / n)` with `1 ≤ r < n ≤ H` is strictly
between `0` and `H`. -/
theorem offset_interior (H n : ℕ) (hn1 : 1 ≤ n) (hnH : n ≤ H) :
    ∀ r, 1 ≤ r → r < n → 0 < r * (H / n) ∧ r * (H / n) < H := by
  intro r h1r hrn
  have hq : 1 ≤ H / n := (Nat.one_le_div_iff (by omega)).mpr hnH
  have hmul : H / n * n ≤ H := Nat.div_mul_le_self _ _
  constructor
  · exact Nat.mul_pos (by omega) (by omega)
  · have e1 : r * (H / n) ≤ (n - 1) * (H / n) :=
      Nat.mul_le_mul_right _ (by omega)
    have e2 : (n - 1) * (H / n) + H / n = n * (H / n) := by
      have hn : n - 1 + 1 = n := by omega
      calc (n - 1) * (H / n) + H / n = (n - 1 + 1) * (H / n) := by ring
        _ = n * (H / n) := by rw [hn]
    have e3 : n * (H / n) ≤ H := by
      rw [mul_comm]; exact hmul
    omega

/-- C5 (amended, with the extra precondition `rows ≤ H` and `cols ≤ W`
forced by the collapse at `H < rows` described in the code): `make_grid`
preserves dimensions and channel count, paints exactly the rows
`r * (H / rows)` (`1 ≤ r < rows`) and columns `c * (W / cols)`
(`1 ≤ c < cols`) in the fixed highlight color on a copy, leaves every other
sample unchanged, and all drawn offsets are strictly inside the image, so
no line lies on the zero border. -/
theorem claim_C5 (img : Img) (rows cols : ℕ)
    (hr1 : 1 ≤ rows) (hc1 : 1 ≤ cols)
    (hrh : rows ≤ img.height) (hcw : cols ≤ img.width) :
    ((make_grid img rows cols).height = img.height ∧
     (make_grid img rows cols).width = img.width ∧
     (make_grid img rows cols).channels = img.channels) ∧
    (∀ y < img.height, ∀ x < img.width, ∀ c < img.channels,
      (make_grid img rows cols).samples y x c =
        if y ∈ hLineOffsets img rows ∨ x ∈ vLineOffsets img cols
        then lineColor c else img.samples y x c) ∧
    (∀ r, 1 ≤ r → r < rows →
      0 < r * (img.height / rows) ∧ r * (img.height / rows) < img.height) ∧
    (∀ cc, 1 ≤ cc → cc < cols →
      0 < cc * (img.width / cols) ∧ cc * (img.width / cols) < img.width) := by
  refine ⟨make_grid_dims img rows cols, ?_, ?_, ?_⟩
  · intro y _ x _ c _
    exact make_grid_samples img rows cols y x c
  · exact offset_interior img.height rows hr1 hrh
  · exact offset_interior img.width cols hc1 hcw

/-- Counterexample to C5 as stated: on a 2×2 buffer with a 4×4 grid the
cell size is zero, and the border row `y = 0` is painted over — a line is
drawn at the image border. -/
theorem claim_C5_cex :
    (make_grid img2 4 4).samples 0 1 1 = 255 ∧ img2.samples 0 1 1 = 7 := by
  constructor
  · rfl
  · rfl

/-- Witness for C5 with a 2×2 grid on a 4×4 buffer. -/
theorem claim_C5_witness :
    (1 : ℕ) ≤ 2 ∧ (2 : ℕ) ≤ imgEx4.height ∧
      (make_grid imgEx4 2 2).height = imgEx4.height :=
  ⟨by decide, by decide,
    (claim_C5 imgEx4 2 2 (by decide) (by decide) (by decide) (by decide)).1.1⟩

/-- C10: when the buffer is shorter than the requested row count the cell
height is zero, so every horizontal offset `r * (h // rows)` is `0` and all
`rows - 1` horizontal lines collapse onto the top border row, which is
painted over; symmetrically for the columns when the buffer is narrower
than the requested column count. -/
theorem claim_C10 (img : Img) (rows cols : ℕ) :
    (img.height < rows →
      (∀ r ∈ List.range' 1 (rows - 1), r * (img.height / rows) = 0) ∧
      (2 ≤ rows → ∀ x < img.width, ∀ c < img.channels,
        (make_grid img rows cols).samples 0 x c = lineColor c)) ∧
    (img.width < cols →
      (∀ cc ∈ List.range' 1 (cols - 1), cc * (img.width / cols) = 0) ∧
      (2 ≤ cols → ∀ y < img.height, ∀ c < img.channels,
        (make_grid img rows cols).samples y 0 c = lineColor c)) := by
  constructor
  · intro hlt
    have hdiv : img.height / rows = 0 := Nat.div_eq_of_lt hlt
    constructor
    · intro r _
      simp [hdiv]
    · intro h2 x _ c _
      rw [make_grid_samples]
      have h0 : (0 : ℕ) ∈ hLineOffsets img rows := by
        rw [hLineOffsets, mem_offsets_iff]
        exact ⟨1, List.mem_range'_1.mpr ⟨le_refl 1, by omega⟩, by simp [hdiv]⟩
      rw [if_pos (Or.inl h0)]
  · intro hlt
    have hdiv : img.width / cols = 0 := Nat.div_eq_of_lt hlt
    constructor
    · intro cc _
      simp [hdiv]
    · intro h2 y _ c _
      rw [make_grid_samples]
      have h0 : (0 : ℕ) ∈ vLineOffsets img cols := by
        rw [vLineOffsets, mem_offsets_iff]
        exact ⟨1, List.mem_range'_1.mpr ⟨le_refl 1, by omega⟩, by simp [hdiv]⟩
      rw [if_pos (Or.inr h0)]

/-- Witness for C10 on a 2×2 buffer with a 4×4 grid: the border pixel at
row 0 is painted in the highlight color. -/
theorem claim_C10_witness :
    img2.height < 4 ∧ (2 : ℕ) ≤ 4 ∧
      (make_grid img2 4 4).samples 0 1 0 = lineColor 0 :=
  ⟨by decide, by decide,
    ((claim_C10 img2 4 4).1 (by decide)).2 (by decide) 1 (by decide) 0 (by decide)⟩

/-- Allocation does not disturb any live reference. -/
theorem alloc_mem_lt (σ : Heap) (v : Img) (i : ℕ) (h : i < σ.next) :
    ((σ.alloc v).2).mem i = σ.mem i := by
  simp only [Heap.alloc]
  rw [if_neg (by omega)]

/-- Allocation bumps the fresh-reference counter. -/
theorem alloc_next (σ : Heap) (v : Img) : (σ.alloc v).2.next = σ.next + 1 :=
  rfl

/-- An allocation returns the previous counter as the fresh reference. -/
theorem alloc_fst (σ : Heap) (v : Img) : (σ.alloc v).1 = σ.next :=
  rfl

/-- A chain of four allocations does not disturb any live reference. -/
theorem mem_after_four_allocs (σ : Heap) (v1 v2 v3 v4 : Img) (i : ℕ)
    (h : i < σ.next) :
    (((((σ.alloc v1).2.alloc v2).2.alloc v3).2.alloc v4).2).mem i = σ.mem i := by
  have h1 : i < (σ.alloc v1).2.next := by rw [alloc_next]; omega
  have h2 : i < ((σ.alloc v1).2.alloc v2).2.next := by
    rw [alloc_next, alloc_next]; omega
  have h3 : i < (((σ.alloc v1).2.alloc v2).2.alloc v3).2.next := by
    rw [alloc_next, alloc_next, alloc_next]; omega
  rw [alloc_mem_lt _ _ _ h3, alloc_mem_lt _ _ _ h2, alloc_mem_lt _ _ _ h1,
    alloc_mem_lt _ _ _ h]

/-- Drawing a batch of horizontal lines on the array at `g` does not
disturb any other reference. -/
theorem foldl_lineH_mem (g i : ℕ) (hne : i ≠ g) :
    ∀ (L : List ℕ) (k : ℕ) (σ : Heap),
      ((L.foldl (fun s rr => s.lineH g (rr * k)) σ)).mem i = σ.mem i := by
  intro L
  induction L with
  | nil => intro k σ; rfl
  | cons a L ih =>
    intro k σ
    simp only [List.foldl_cons]
    rw [ih k _]
    simp only [Heap.lineH]
    rw [if_neg hne]

/-- Drawing a batch of vertical lines on the array at `g` does not disturb
any other reference. -/
theorem foldl_lineV_mem (g i : ℕ) (hne : i ≠ g) :
    ∀ (L : List ℕ) (k : ℕ) (σ : Heap),
      ((L.foldl (fun s cc => s.lineV g (cc * k)) σ)).mem i = σ.mem i := by
  intro L
  induction L with
  | nil => intro k σ; rfl
  | cons a L ih =>
    intro k σ
    simp only [List.foldl_cons]
    rw [ih k _]
    simp only [Heap.lineV]
    rw [if_neg hne]

/-- The detection loop draws only on the array at `obj`; every other
reference is untouched. -/
theorem foldl_rect_mem (obj i : ℕ) (hne : i ≠ obj) (minArea : ℚ) :
    ∀ (L : List Contour) (st : Heap × ℕ),
      ((L.foldl (detectStep_st obj minArea) st).1).mem i = st.1.mem i := by
  intro L
  induction L with
  | nil => intro st; rfl
  | cons c L ih =>
    intro st
    simp only [List.foldl_cons]
    rw [ih]
    by_cases hc : minArea < contourArea c
    · simp only [detectStep_st, if_pos hc, Heap.rect]
      rw [if_neg hne]
    · simp only [detectStep_st, if_neg hc]

/-- C9: no core operation mutates its input array.  For every live
reference `r`, grayscale conversion, rotation, mirroring, grid overlay,
object detection and property reporting all leave the array at `r` exactly
as it was: the two drawing operations (`make_grid`, `detect_objects`) write
only on a private copy of the source. -/
theorem claim_C9 (gb cn : Img → Img) (fc : Img → List Contour)
    (σ : Heap) (r : ℕ) (rows cols : ℕ) (angle : ℤ) (minArea : ℚ)
    (h : r < σ.next) :
    ((to_grayscale_st r σ).2).mem r = σ.mem r ∧
    ((rotate_image_st r angle σ).2).mem r = σ.mem r ∧
    ((mirror_image_st r σ).2).mem r = σ.mem r ∧
    ((make_grid_st r rows cols σ).2).mem r = σ.mem r ∧
    ((detect_objects_st gb cn fc r minArea σ).2).mem r = σ.mem r ∧
    (get_properties_st r σ).2 = σ := by
  have hneq : r ≠ σ.next := by omega
  refine ⟨?_, ?_, ?_, ?_, ?_, rfl⟩
  · cases hg : to_grayscale (σ.mem r) with
    | none => simp [to_grayscale_st, hg]
    | some g =>
      simp only [to_grayscale_st, hg]
      exact alloc_mem_lt σ g r h
  · by_cases ha : angle = 90 ∨ angle = 180 ∨ angle = 270
    · simp only [rotate_image_st, if_pos ha]
      exact alloc_mem_lt _ _ _ h
    · simp only [rotate_image_st, if_neg ha]
  · exact alloc_mem_lt _ _ _ h
  · simp only [make_grid_st, Heap.copy, alloc_fst]
    rw [foldl_lineV_mem _ _ hneq, foldl_lineH_mem _ _ hneq,
      alloc_mem_lt _ _ _ h]
  · cases hg : cvtColor_BGR2GRAY (σ.mem r) with
    | none => simp [detect_objects_st, hg]
    | some g =>
      simp only [detect_objects_st, hg, Heap.copy, alloc_fst, alloc_next]
      have hne3 : r ≠ σ.next + 1 + 1 + 1 := by omega
      rw [foldl_rect_mem _ _ hne3]
      exact mem_after_four_allocs σ _ _ _ _ r h

/-- Witness for C9 on a one-array heap. -/
theorem claim_C9_witness :
    (0 : ℕ) < heapEx.next ∧
      ((make_grid_st 0 4 4 heapEx).2).mem 0 = heapEx.mem 0 :=
  ⟨by decide,
    (claim_C9 id id (fun _ => []) heapEx 0 4 4 45 500 (by decide)).2.2.2.1⟩

end BasicImage
